import Mathlib

/-!
Verification of the heterogeneous-tuple row-mapping and SQL-fragment
composition layer (`src/diesel/src/types/impls/tuples.rs`).

The Rust source generates, by a single macro, identical per-arity
implementations for tuple arities 1..52: every method body is the uniform
left-to-right repetition of one per-element step.  We embed that generation
rule shallowly: a Rust `N`-tuple instance together with the per-element
trait implementations it delegates to is modelled as a length-`N` list of
element capability records, and each macro-generated tuple method becomes a
structural recursion over that list that performs exactly the per-element
step the macro stamps out, in the same order.  Element-level behaviour
(`FromSqlRow` of a scalar, an expression's `walk_ast`, `push_identifier` of
the query builder, ...) is external to the file under verification, so it is
kept abstract: an element record carries the element's own operations as
opaque data.
-/

set_option autoImplicit false

namespace DieselTuples

universe u

variable {σ : Type} {E : Type} {Tok : Type} {V : Type}

/-- Decoded SQL values.  A scalar decodes to an `atom`; a nested tuple
decodes to the `group` of its elements' values, which lets a tuple itself
appear as one element of a larger tuple (nested composites). -/
inductive Val where
  | atom (n : Nat)
  | group (vs : List Val)

/-- One element of a tuple, viewed through its `FromSqlRow` implementation:
`build_from_row` consumes the row cursor state `σ` and either produces a
value (mutating the cursor) or fails with an error `E` (the cursor is left
in whatever state the element's own logic produced); `fields_needed` is the
number of underlying row positions the element consumes. -/
structure ElemDecoder (σ E : Type) where
  build_from_row : σ → Except E Val × σ
  fields_needed : Nat

/-- The row-cursor collaborator interface used by the nullable-composite
decode: peek whether the next `k` positions are all NULL, and advance the
cursor by `k` positions (`Row::next_is_null` / `Row::advance`). -/
structure RowOps (σ : Type) where
  next_is_null : Nat → σ → Bool
  advance : Nat → σ → σ

/-- Tuple `FromSqlRow::build_from_row` (tuples.rs lines 43-45):
`Ok(($(try!($T::build_from_row(row)),)+))` — decode each element in order,
threading the row cursor, returning the first error unchanged. -/
def build_from_row (elems : List (ElemDecoder σ E)) (row : σ) :
    Except E (List Val) × σ :=
  match elems with
  | [] => (Except.ok [], row)
  | e :: es =>
    match e.build_from_row row with
    | (Except.error err, row') => (Except.error err, row')
    | (Except.ok v, row') =>
      match build_from_row es row' with
      | (Except.error err, row'') => (Except.error err, row'')
      | (Except.ok vs, row'') => (Except.ok (v :: vs), row'')

/-- Tuple `FromSqlRow::fields_needed` for the plain tuple impl
(tuples.rs lines 47-49): `$($T::fields_needed() +)+ 0`. -/
def fields_needed (elems : List (ElemDecoder σ E)) : Nat :=
  match elems with
  | [] => 0
  | e :: es => e.fields_needed + fields_needed es

/-- Tuple `FromSqlRow::fields_needed` of the `Nullable<(ST,..)>` impl
(tuples.rs lines 68-70); its body is the same sum `$($T::fields_needed() +)+ 0`. -/
def fields_needed_nullable (elems : List (ElemDecoder σ E)) : Nat :=
  match elems with
  | [] => 0
  | e :: es => e.fields_needed + fields_needed_nullable es

/-- Rust `FromSqlRow<Nullable<(ST,..)>, DB> for Option<(T,..)>::build_from_row`
(tuples.rs lines 58-66): if the next `fields_needed` positions are all
null, advance past them and yield `Ok(None)`; otherwise decode every
element in order as the plain tuple does, wrapping success in `Some`. -/
def build_from_row_nullable (ops : RowOps σ) (elems : List (ElemDecoder σ E))
    (row : σ) : Except E (Option (List Val)) × σ :=
  let fn := fields_needed_nullable elems
  if ops.next_is_null fn row then
    (Except.ok none, ops.advance fn row)
  else
    match build_from_row elems row with
    | (Except.error err, row') => (Except.error err, row')
    | (Except.ok vs, row') => (Except.ok (some vs), row')

/-- A tuple embedded as a single element of an enclosing tuple: its
`build_from_row` is the tuple impl's decode (grouping the element values)
and its `fields_needed` is the tuple impl's recursive sum. -/
def tuple_as_element (inner : List (ElemDecoder σ E)) : ElemDecoder σ E :=
  ⟨fun row =>
    match build_from_row inner row with
    | (Except.error err, row') => (Except.error err, row')
    | (Except.ok vs, row') => (Except.ok (Val.group vs), row'),
   fields_needed inner⟩

/-- Instrumentation for decode-order arguments: the same element decoder,
lifted to a state carrying a call log, recording its index `i` each time
its `build_from_row` runs. -/
def traceElem (i : Nat) (e : ElemDecoder σ E) : ElemDecoder (σ × List Nat) E :=
  ⟨fun p =>
    match e.build_from_row p.1 with
    | (r, s') => (r, (s', p.2 ++ [i])), e.fields_needed⟩

/-- The list of element decoders instrumented with call logging, indices
starting at `i`. -/
def tracedFrom (i : Nat) (elems : List (ElemDecoder σ E)) :
    List (ElemDecoder (σ × List Nat) E) :=
  match elems with
  | [] => []
  | e :: es => traceElem i e :: tracedFrom (i + 1) es

/-- One item of the output of the AST/query builder: either literal SQL
text (`push_sql`) or a quoted identifier (`push_identifier`).  An element's
own rendering contributes a list of such chunks. -/
inductive SqlChunk where
  | sql (s : String)
  | ident (s : String)
deriving DecidableEq

/-- One element of a tuple viewed through its `QueryFragment`
implementation: `walk_ast` either fails or appends the element's fragment
chunks to the builder. -/
structure FragElem (E : Type) where
  walk_ast : Except E (List SqlChunk)

/-- Tuple `QueryFragment::walk_ast` (tuples.rs lines 90-100): for each
element in positional order, push the literal `", "` when the positional
index is not 0, then walk the element, propagating the first error. -/
def tuple_walk_ast_aux (i : Nat) (out : List SqlChunk)
    (elems : List (FragElem E)) : Except E (List SqlChunk) :=
  match elems with
  | [] => Except.ok out
  | e :: es =>
    let out := if i = 0 then out else out ++ [SqlChunk.sql ", "]
    match e.walk_ast with
    | Except.error err => Except.error err
    | Except.ok cs => tuple_walk_ast_aux (i + 1) (out ++ cs) es

/-- Entry point of tuple `QueryFragment::walk_ast`: positional index starts
at 0 with an empty builder contribution. -/
def tuple_walk_ast (elems : List (FragElem E)) : Except E (List SqlChunk) :=
  tuple_walk_ast_aux 0 [] elems

/-- Reference emission shape: the fragments in order, the separator
prefixed to a fragment exactly when something has already been written
(`written` is the has-anything-been-emitted flag). -/
def sepJoin (written : Bool) (frags : List (List SqlChunk)) : List SqlChunk :=
  match frags with
  | [] => []
  | f :: fs => (if written then [SqlChunk.sql ", "] else []) ++ f ++ sepJoin true fs

/-- One element of a tuple viewed through its `Changeset` implementation:
whether it is a no-op, and what its own `walk_ast` emits. -/
structure ChangesetElem (E : Type) where
  is_noop : Bool
  walk_ast : Except E (List SqlChunk)

/-- Tuple `Changeset::is_noop` (tuples.rs lines 216-218):
`$(self.$idx.is_noop() &&)+ true`. -/
def changeset_is_noop (elems : List (ChangesetElem E)) : Bool :=
  match elems with
  | [] => true
  | e :: es => e.is_noop && changeset_is_noop es

/-- Tuple `Changeset::walk_ast` (tuples.rs lines 220-234): skip no-op
elements; before a rendered element push `", "` exactly when `needs_comma`
is set, i.e. when some earlier element has already rendered. -/
def changeset_walk_ast_aux (needs_comma : Bool) (out : List SqlChunk)
    (elems : List (ChangesetElem E)) : Except E (List SqlChunk) :=
  match elems with
  | [] => Except.ok out
  | e :: es =>
    if e.is_noop then
      changeset_walk_ast_aux needs_comma out es
    else
      let out := if needs_comma then out ++ [SqlChunk.sql ", "] else out
      match e.walk_ast with
      | Except.error err => Except.error err
      | Except.ok cs => changeset_walk_ast_aux true (out ++ cs) es

/-- Entry point of tuple `Changeset::walk_ast`: `needs_comma` starts false. -/
def changeset_walk_ast (elems : List (ChangesetElem E)) : Except E (List SqlChunk) :=
  changeset_walk_ast_aux false [] elems

/-- Rust `ColumnInsertValue<Col, Expr>`: either an explicit expression (whose
own `walk_ast` emission we carry abstractly) or the default marker. -/
inductive ColumnInsertValue (E : Type) where
  | Expression (render : Except E (List SqlChunk))
  | Default

/-- One entry of an insertable tuple: the column's name (`$T::name()`)
together with its `ColumnInsertValue`. -/
structure InsertEntry (E : Type) where
  name : String
  value : ColumnInsertValue E

/-- Whether an insert entry is an explicit expression (the
`if let ColumnInsertValue::Expression(..)` test of the Sqlite impl). -/
def isExpr (e : InsertEntry E) : Bool :=
  match e.value with
  | ColumnInsertValue.Expression _ => true
  | ColumnInsertValue.Default => false

/-- The emission of an entry's expression, when it is one (unused on
default entries). -/
def exprRender (e : InsertEntry E) : Except E (List SqlChunk) :=
  match e.value with
  | ColumnInsertValue.Expression r => r
  | ColumnInsertValue.Default => Except.ok []

/-- What the standard-policy value list emits for one entry (tuples.rs
lines 137-141): the expression's own fragment for `Expression`, the
literal `DEFAULT` otherwise. -/
def valueChunks (e : InsertEntry E) : Except E (List SqlChunk) :=
  match e.value with
  | ColumnInsertValue.Expression r => r
  | ColumnInsertValue.Default => Except.ok [SqlChunk.sql "DEFAULT"]

/-- Rust `InsertValues::column_names` for backends with `SupportsDefaultKeyword`
(tuples.rs lines 121-129): every column name is pushed in positional
order, `", "` before each positional index other than 0; `push_identifier`
failures propagate.  `pushId` is the builder's fallible identifier
renderer. -/
def column_names_std_aux (pushId : String → Except E String) (i : Nat)
    (out : List SqlChunk) (entries : List (InsertEntry E)) :
    Except E (List SqlChunk) :=
  match entries with
  | [] => Except.ok out
  | entry :: es =>
    let out := if i = 0 then out else out ++ [SqlChunk.sql ", "]
    match pushId entry.name with
    | Except.error err => Except.error err
    | Except.ok s => column_names_std_aux pushId (i + 1) (out ++ [SqlChunk.ident s]) es

/-- Entry point of the standard-policy `column_names`. -/
def column_names_std (pushId : String → Except E String)
    (entries : List (InsertEntry E)) : Except E (List SqlChunk) :=
  column_names_std_aux pushId 0 [] entries

/-- Loop of `InsertValues::walk_ast` for backends with
`SupportsDefaultKeyword` (tuples.rs lines 133-142): one value position per
entry in positional order, `", "` before each positional index other
than 0. -/
def insert_walk_ast_std_aux (i : Nat) (out : List SqlChunk)
    (entries : List (InsertEntry E)) : Except E (List SqlChunk) :=
  match entries with
  | [] => Except.ok out
  | entry :: es =>
    let out := if i = 0 then out else out ++ [SqlChunk.sql ", "]
    match valueChunks entry with
    | Except.error err => Except.error err
    | Except.ok cs => insert_walk_ast_std_aux (i + 1) (out ++ cs) es

/-- Rust `InsertValues::walk_ast`, standard policy (tuples.rs lines 131-145):
`push_sql("(")`, the loop, `push_sql(")")`. -/
def insert_walk_ast_std (entries : List (InsertEntry E)) : Except E (List SqlChunk) :=
  match insert_walk_ast_std_aux 0 [SqlChunk.sql "("] entries with
  | Except.error err => Except.error err
  | Except.ok out => Except.ok (out ++ [SqlChunk.sql ")"])

/-- Rust `InsertValues<Sqlite>::column_names` (tuples.rs lines 156-168): only
`Expression` entries emit their identifier; `", "` is pushed exactly when
`columns_present` is set, i.e. when some column was already written. -/
def column_names_sqlite_aux (pushId : String → Except E String)
    (columns_present : Bool) (out : List SqlChunk)
    (entries : List (InsertEntry E)) : Except E (List SqlChunk) :=
  match entries with
  | [] => Except.ok out
  | entry :: es =>
    match entry.value with
    | ColumnInsertValue.Expression _ =>
      let out := if columns_present then out ++ [SqlChunk.sql ", "] else out
      match pushId entry.name with
      | Except.error err => Except.error err
      | Except.ok s => column_names_sqlite_aux pushId true (out ++ [SqlChunk.ident s]) es
    | ColumnInsertValue.Default => column_names_sqlite_aux pushId columns_present out es

/-- Entry point of the Sqlite `column_names`: `columns_present` starts
false and the builder contribution empty. -/
def column_names_sqlite (pushId : String → Except E String)
    (entries : List (InsertEntry E)) : Except E (List SqlChunk) :=
  column_names_sqlite_aux pushId false [] entries

/-- Loop of `InsertValues<Sqlite>::walk_ast` (tuples.rs lines 174-182):
only `Expression` entries render their value, with the same
`columns_present` separator tracking; `Default` entries are skipped. -/
def insert_walk_ast_sqlite_aux (columns_present : Bool) (out : List SqlChunk)
    (entries : List (InsertEntry E)) : Except E (List SqlChunk) :=
  match entries with
  | [] => Except.ok out
  | entry :: es =>
    match entry.value with
    | ColumnInsertValue.Expression r =>
      let out := if columns_present then out ++ [SqlChunk.sql ", "] else out
      match r with
      | Except.error err => Except.error err
      | Except.ok cs => insert_walk_ast_sqlite_aux true (out ++ cs) es
    | ColumnInsertValue.Default => insert_walk_ast_sqlite_aux columns_present out es

/-- Rust `InsertValues<Sqlite>::walk_ast` (tuples.rs lines 171-185):
`push_sql("(")`, the skipping loop, `push_sql(")")`. -/
def insert_walk_ast_sqlite (entries : List (InsertEntry E)) : Except E (List SqlChunk) :=
  match insert_walk_ast_sqlite_aux false [SqlChunk.sql "("] entries with
  | Except.error err => Except.error err
  | Except.ok out => Except.ok (out ++ [SqlChunk.sql ")"])

/-- One element of a tuple viewed through its `QueryId` implementation:
`query_id` models the associated type `T::QueryId` (a token determined by
the element's structure alone), `has_static_query_id` its
`has_static_query_id()`, and `bound` the element's dynamic bound value,
which the `QueryId` machinery never consults. -/
structure QueryIdElem (Tok V : Type) where
  query_id : Tok
  has_static_query_id : Bool
  bound : V

/-- Tuple `QueryId::QueryId` (tuples.rs line 103): the ordered composite
`($($T::QueryId,)+)` of the element tokens. -/
def tuple_query_id (elems : List (QueryIdElem Tok V)) : List Tok :=
  match elems with
  | [] => []
  | e :: es => e.query_id :: tuple_query_id es

/-- Tuple `QueryId::has_static_query_id` (tuples.rs lines 105-107):
`$($T::has_static_query_id() &&)+ true`. -/
def tuple_has_static_query_id (elems : List (QueryIdElem Tok V)) : Bool :=
  match elems with
  | [] => true
  | e :: es => e.has_static_query_id && tuple_has_static_query_id es

/-- Replace the dynamic bound value of the element at position `i`,
keeping its structure (token and static flag) unchanged. -/
def set_bound (elems : List (QueryIdElem Tok V)) (i : Nat) (v : V) :
    List (QueryIdElem Tok V) :=
  match elems, i with
  | [], _ => []
  | e :: es, 0 => ⟨e.query_id, e.has_static_query_id, v⟩ :: es
  | e :: es, i + 1 => e :: set_bound es i v

/-- Result of a Rust function that may diverge by panicking instead of
returning: `panicked msg` models `unreachable!(msg)` aborting the call. -/
inductive PanicOr (α : Type u) where
  | panicked (msg : String)
  | value (a : α)

/-- Rust `HasSqlType<(T,..)> for DB::metadata` (tuples.rs lines 25-27): the body
is `unreachable!("Tuples should never implement `ToSql` directly")`, for
every lookup argument. -/
def tuple_metadata (Lookup TypeMetadata : Type) (_lookup : Lookup) :
    PanicOr TypeMetadata :=
  PanicOr.panicked "Tuples should never implement `ToSql` directly"

/-- Concrete row cursor for instantiations: the list of remaining field
values, `next_is_null k` peeking the next `k` entries, `advance k`
dropping them. -/
def listRowOps : RowOps (List (Option Nat)) :=
  ⟨fun n s => (s.take n).all fun x => x.isNone, fun n s => s.drop n⟩

/-- Concrete scalar decoder consuming one field: a missing field is an
error, a NULL decodes to `atom 0`, a value to its atom. -/
def takeElem : ElemDecoder (List (Option Nat)) String :=
  ⟨fun s =>
    match s with
    | [] => (Except.error "unexpected end of row", [])
    | none :: rest => (Except.ok (Val.atom 0), rest)
    | some n :: rest => (Except.ok (Val.atom n), rest), 1⟩

/-- Concrete decoder that always fails without touching the cursor. -/
def failElem : ElemDecoder (List (Option Nat)) String :=
  ⟨fun s => (Except.error "boom", s), 1⟩

/-- Concrete three-element tuple whose middle element fails to decode. -/
def w3elems : List (ElemDecoder (List (Option Nat)) String) :=
  [takeElem, failElem, takeElem]

/-- Concrete row for the failing-decode instantiation. -/
def w3row : List (Option Nat) := [some 5, some 6, some 7]

/-- Concrete identifier renderer that never fails. -/
def okId : String → Except String String := fun s => Except.ok s

/-- Concrete insertable three-tuple whose middle entry is default-marked. -/
def entriesW : List (InsertEntry String) :=
  [⟨"a", ColumnInsertValue.Expression (Except.ok [SqlChunk.sql "1"])⟩,
   ⟨"b", ColumnInsertValue.Default⟩,
   ⟨"c", ColumnInsertValue.Expression (Except.ok [SqlChunk.sql "3"])⟩]

/-- Concrete insertable three-tuple with every entry default-marked. -/
def entriesAllDefault : List (InsertEntry String) :=
  [⟨"a", ColumnInsertValue.Default⟩, ⟨"b", ColumnInsertValue.Default⟩,
   ⟨"c", ColumnInsertValue.Default⟩]

/-- Concrete changeset with no-op flags `[false, true, false]`. -/
def csW : List (ChangesetElem String) :=
  [⟨false, Except.ok [SqlChunk.sql "a = 1"]⟩,
   ⟨true, Except.ok [SqlChunk.sql "b = 2"]⟩,
   ⟨false, Except.ok [SqlChunk.sql "c = 3"]⟩]

/-- Fragments of the non-no-op elements of `csW`. -/
def fragsCsW : List (List SqlChunk) := [[SqlChunk.sql "a = 1"], [SqlChunk.sql "c = 3"]]

/-- Concrete three-element query-fragment tuple. -/
def fragElemsW : List (FragElem String) :=
  [⟨Except.ok [SqlChunk.sql "x"]⟩, ⟨Except.ok [SqlChunk.sql "y"]⟩,
   ⟨Except.ok [SqlChunk.sql "z"]⟩]

/-- Fragments of the elements of `fragElemsW`. -/
def fragsW : List (List SqlChunk) := [[SqlChunk.sql "x"], [SqlChunk.sql "y"], [SqlChunk.sql "z"]]

theorem fields_needed_nullable_eq (elems : List (ElemDecoder σ E)) :
    fields_needed_nullable elems = fields_needed elems := by
  induction elems with
  | nil => rfl
  | cons e es ih => simp [fields_needed, fields_needed_nullable, ih]

theorem fields_needed_eq_sum (elems : List (ElemDecoder σ E)) :
    fields_needed elems = (elems.map ElemDecoder.fields_needed).sum := by
  induction elems with
  | nil => rfl
  | cons e es ih => simp [fields_needed, ih]

theorem fields_needed_append (xs ys : List (ElemDecoder σ E)) :
    fields_needed (xs ++ ys) = fields_needed xs + fields_needed ys := by
  induction xs with
  | nil => simp [fields_needed]
  | cons e es ih => simp [fields_needed, ih, Nat.add_assoc]

theorem build_ok_append_ok (xs ys : List (ElemDecoder σ E)) :
    ∀ (row s t : σ) (vs ws : List Val),
      build_from_row xs row = (Except.ok vs, s) →
      build_from_row ys s = (Except.ok ws, t) →
      build_from_row (xs ++ ys) row = (Except.ok (vs ++ ws), t) := by
  induction xs with
  | nil =>
    intro row s t vs ws h hy
    simp [build_from_row] at h
    obtain ⟨h1, h2⟩ := h
    subst h1; subst h2
    simpa using hy
  | cons e es ih =>
    intro row s t vs ws h hy
    rcases he : e.build_from_row row with ⟨r1, row'⟩
    cases r1 with
    | error e1 =>
      rw [build_from_row, he] at h
      simp at h
    | ok v =>
      rcases hb : build_from_row es row' with ⟨r2, row''⟩
      cases r2 with
      | error e2 =>
        rw [build_from_row, he] at h
        simp [hb] at h
      | ok vs' =>
        rw [build_from_row, he] at h
        simp [hb] at h
        obtain ⟨h1, h2⟩ := h
        subst h1; subst h2
        simp [build_from_row, he, hb, List.cons_append,
          ih row' row'' t vs' ws hb hy]

theorem build_ok_append_err (xs ys : List (ElemDecoder σ E)) :
    ∀ (row s t : σ) (vs : List Val) (err : E),
      build_from_row xs row = (Except.ok vs, s) →
      build_from_row ys s = (Except.error err, t) →
      build_from_row (xs ++ ys) row = (Except.error err, t) := by
  induction xs with
  | nil =>
    intro row s t vs err h hy
    simp [build_from_row] at h
    obtain ⟨h1, h2⟩ := h
    subst h1; subst h2
    simpa using hy
  | cons e es ih =>
    intro row s t vs err h hy
    rcases he : e.build_from_row row with ⟨r1, row'⟩
    cases r1 with
    | error e1 =>
      rw [build_from_row, he] at h
      simp at h
    | ok v =>
      rcases hb : build_from_row es row' with ⟨r2, row''⟩
      cases r2 with
      | error e2 =>
        rw [build_from_row, he] at h
        simp [hb] at h
      | ok vs' =>
        rw [build_from_row, he] at h
        simp [hb] at h
        obtain ⟨h1, h2⟩ := h
        subst h1; subst h2
        simp [build_from_row, he, hb, List.cons_append,
          ih row' row'' t vs' err hb hy]

theorem tracedFrom_append (xs ys : List (ElemDecoder σ E)) :
    ∀ i, tracedFrom i (xs ++ ys) = tracedFrom i xs ++ tracedFrom (i + xs.length) ys := by
  induction xs with
  | nil => intro i; simp [tracedFrom]
  | cons e es ih =>
    intro i
    have harith : i + (es.length + 1) = i + 1 + es.length := by omega
    simp [tracedFrom, ih (i + 1), harith]

theorem traced_ok_run (xs : List (ElemDecoder σ E)) :
    ∀ (i : Nat) (row s : σ) (log : List Nat) (vs : List Val),
      build_from_row xs row = (Except.ok vs, s) →
      build_from_row (tracedFrom i xs) (row, log) =
        (Except.ok vs, (s, log ++ List.range' i xs.length)) := by
  induction xs with
  | nil =>
    intro i row s log vs h
    simp [build_from_row] at h
    obtain ⟨h1, h2⟩ := h
    subst h1; subst h2
    simp [tracedFrom, build_from_row]
  | cons e es ih =>
    intro i row s log vs h
    rcases he : e.build_from_row row with ⟨r1, row'⟩
    cases r1 with
    | error err =>
      rw [build_from_row, he] at h
      simp at h
    | ok v =>
      rcases hb : build_from_row es row' with ⟨r2, row''⟩
      cases r2 with
      | error err =>
        rw [build_from_row, he] at h
        simp [hb] at h
      | ok vs' =>
        rw [build_from_row, he] at h
        simp [hb] at h
        obtain ⟨h1, h2⟩ := h
        subst h1; subst h2
        have hhead : (traceElem i e).build_from_row (row, log) =
            (Except.ok v, (row', log ++ [i])) := by
          simp [traceElem, he]
        simp [tracedFrom, build_from_row, hhead,
          ih (i + 1) row' row'' (log ++ [i]) vs' hb, List.range']

/-- Claim C1: decoding the nullable-composite wrapper peeks the next
`fields_needed` positions; when they are all null it advances the cursor by
exactly `fields_needed` and yields the absent result `Ok(None)` without
invoking any element decoder (the outcome depends only on the elements'
field counts, not on their decode logic); when at least one position is
non-null it runs the plain tuple decode, which decodes every element in
order by its own logic, and wraps the decoded group in `Some`. -/
theorem claim_c1 (ops : RowOps σ) (elems : List (ElemDecoder σ E)) (row : σ) :
    (ops.next_is_null (fields_needed_nullable elems) row = true →
      build_from_row_nullable ops elems row =
        (Except.ok none, ops.advance (fields_needed_nullable elems) row) ∧
      ∀ elems₂ : List (ElemDecoder σ E),
        elems₂.map ElemDecoder.fields_needed = elems.map ElemDecoder.fields_needed →
        build_from_row_nullable ops elems₂ row = build_from_row_nullable ops elems row) ∧
    (ops.next_is_null (fields_needed_nullable elems) row = false →
      build_from_row_nullable ops elems row =
        ((build_from_row elems row).1.map some, (build_from_row elems row).2)) := by
  constructor
  · intro h
    have h1 : build_from_row_nullable ops elems row =
        (Except.ok none, ops.advance (fields_needed_nullable elems) row) := by
      simp [build_from_row_nullable, h]
    refine ⟨h1, fun elems₂ hmap => ?_⟩
    have hfn : fields_needed_nullable elems₂ = fields_needed_nullable elems := by
      rw [fields_needed_nullable_eq, fields_needed_nullable_eq,
        fields_needed_eq_sum, fields_needed_eq_sum, hmap]
    rw [h1]
    simp [build_from_row_nullable, hfn, h]
  · intro h
    simp only [build_from_row_nullable, h, if_false, Bool.false_eq_true]
    rcases hb : build_from_row elems row with ⟨r, s⟩
    cases r <;> simp [Except.map]

/-- Closed instantiation of `claim_c1`: a two-element tuple over a
two-null row takes the absent branch and advances past both fields. -/
theorem claim_c1_witness :
    build_from_row_nullable listRowOps [takeElem, takeElem] [none, none] =
      (Except.ok none,
        listRowOps.advance (fields_needed_nullable [takeElem, takeElem]) [none, none]) :=
  ((claim_c1 listRowOps [takeElem, takeElem] [none, none]).1 rfl).1

/-- Claim C2: the tuple's aggregate field count is the sum of its
elements' field counts, the nullable-composite wrapper's `fields_needed`
coincides with the plain tuple's, and the count composes recursively when
an element is itself a tuple. -/
theorem claim_c2 (elems pre post inner : List (ElemDecoder σ E)) :
    fields_needed elems = (elems.map ElemDecoder.fields_needed).sum ∧
    fields_needed_nullable elems = fields_needed elems ∧
    fields_needed (pre ++ tuple_as_element inner :: post) =
      fields_needed pre + fields_needed inner + fields_needed post := by
  refine ⟨fields_needed_eq_sum elems, fields_needed_nullable_eq elems, ?_⟩
  rw [fields_needed_append]
  simp [fields_needed, tuple_as_element]
  omega

/-- Claim C3: plain tuple decode is strictly positional and fails as a
whole with the first element error, unchanged.  If the elements before
position `i` all decode (threading the cursor to `s₁`) and element `i`
fails with `err`, the tuple decode returns exactly that error and the
cursor state the failing element left; the instrumented run logs exactly
the element indices `0, 1, ..., i` — each element at most once, in
positional order, none after the failure. -/
theorem claim_c3 (elems pre post : List (ElemDecoder σ E)) (e : ElemDecoder σ E)
    (row s₁ s₂ : σ) (vs : List Val) (err : E)
    (hsplit : elems = pre ++ e :: post)
    (hpre : build_from_row pre row = (Except.ok vs, s₁))
    (hfail : e.build_from_row s₁ = (Except.error err, s₂)) :
    build_from_row elems row = (Except.error err, s₂) ∧
    (build_from_row (tracedFrom 0 elems) (row, ([] : List Nat))).2.2 =
      List.range (pre.length + 1) := by
  subst hsplit
  have htail : build_from_row (e :: post) s₁ = (Except.error err, s₂) := by
    rw [build_from_row, hfail]
  constructor
  · exact build_ok_append_err pre (e :: post) row s₁ s₂ vs err hpre htail
  · have hpretr : build_from_row (tracedFrom 0 pre) (row, ([] : List Nat)) =
        (Except.ok vs, (s₁, [] ++ List.range' 0 pre.length)) :=
      traced_ok_run pre 0 row s₁ [] vs hpre
    have htailtr : build_from_row (tracedFrom (0 + pre.length) (e :: post))
        (s₁, [] ++ List.range' 0 pre.length) =
        (Except.error err, (s₂, ([] ++ List.range' 0 pre.length) ++ [pre.length])) := by
      rw [tracedFrom, build_from_row]
      have hhead : (traceElem (0 + pre.length) e).build_from_row
          (s₁, [] ++ List.range' 0 pre.length) =
          (Except.error err, (s₂, ([] ++ List.range' 0 pre.length) ++ [0 + pre.length])) := by
        simp [traceElem, hfail]
      rw [hhead]
      simp
    have := build_ok_append_err (tracedFrom 0 pre) (tracedFrom (0 + pre.length) (e :: post))
      (row, ([] : List Nat)) (s₁, [] ++ List.range' 0 pre.length)
      (s₂, ([] ++ List.range' 0 pre.length) ++ [pre.length]) vs err hpretr htailtr
    rw [← tracedFrom_append pre (e :: post) 0] at this
    rw [this]
    simp [List.range_succ, List.range_eq_range']

/-- Closed instantiation of `claim_c3`: in a three-element tuple whose
middle element fails, the decode returns the middle element's error with
the cursor it left, and the call log is exactly `[0, 1]`. -/
theorem claim_c3_witness :
    build_from_row w3elems w3row = (Except.error "boom", [some 6, some 7]) ∧
    (build_from_row (tracedFrom 0 w3elems) (w3row, ([] : List Nat))).2.2 =
      List.range 2 :=
  claim_c3 w3elems [takeElem] [takeElem] failElem w3row [some 6, some 7]
    [some 6, some 7] [Val.atom 5] "boom" rfl rfl rfl

theorem tuple_walk_ast_aux_spec (elems : List (FragElem E)) :
    ∀ (frags : List (List SqlChunk)) (i : Nat) (out : List SqlChunk),
      elems.map FragElem.walk_ast = frags.map Except.ok →
      tuple_walk_ast_aux i out elems =
        Except.ok (out ++ sepJoin (decide (i ≠ 0)) frags) := by
  induction elems with
  | nil =>
    intro frags i out h
    cases frags with
    | nil => simp [tuple_walk_ast_aux, sepJoin]
    | cons f fs => simp at h
  | cons e es ih =>
    intro frags i out h
    cases frags with
    | nil => simp at h
    | cons f fs =>
      simp at h
      obtain ⟨hf, hfs⟩ := h
      rw [tuple_walk_ast_aux, hf]
      show tuple_walk_ast_aux (i + 1)
          ((if i = 0 then out else out ++ [SqlChunk.sql ", "]) ++ f) es =
        Except.ok (out ++ sepJoin (decide (i ≠ 0)) (f :: fs))
      rw [ih fs (i + 1) _ hfs]
      by_cases hi : i = 0
      · subst hi
        simp [sepJoin, Nat.succ_ne_zero, List.append_assoc]
      · simp [sepJoin, hi, Nat.succ_ne_zero, List.append_assoc]

/-- Claim C7: rendering a tuple as a plain SQL fragment emits each
element's fragment in positional order with the `", "` separator exactly
between consecutive elements (prefixed to every element after the first,
never before the first or after the last); when no element fragment itself
contains the separator chunk, exactly `n - 1` separators appear. -/
theorem claim_c7 (elems : List (FragElem E)) (frags : List (List SqlChunk))
    (h : elems.map FragElem.walk_ast = frags.map Except.ok) :
    tuple_walk_ast elems = Except.ok (sepJoin false frags) ∧
    ((∀ f ∈ frags, SqlChunk.sql ", " ∉ f) →
      (sepJoin false frags).count (SqlChunk.sql ", ") = frags.length - 1) := by
  constructor
  · rw [tuple_walk_ast, tuple_walk_ast_aux_spec elems frags 0 [] h]
    simp
  · intro hsep
    have key : ∀ fs : List (List SqlChunk), (∀ f ∈ fs, SqlChunk.sql ", " ∉ f) →
        (sepJoin true fs).count (SqlChunk.sql ", ") = fs.length ∧
        (sepJoin false fs).count (SqlChunk.sql ", ") = fs.length - 1 := by
      intro fs
      induction fs with
      | nil => intro _; simp [sepJoin]
      | cons f fs ihf =>
        intro hmem
        have hf : (f.count (SqlChunk.sql ", ")) = 0 :=
          List.count_eq_zero.mpr (hmem f (List.mem_cons_self f fs))
        have ht := (ihf fun g hg => hmem g (List.mem_cons_of_mem f hg)).1
        constructor
        · simp [sepJoin, List.count_append, hf, ht]
        · simp [sepJoin, List.count_append, hf, ht]
    exact (key frags hsep).2

/-- Closed instantiation of `claim_c7`: three fragments render with two
separators, one between each consecutive pair. -/
theorem claim_c7_witness :
    tuple_walk_ast fragElemsW = Except.ok (sepJoin false fragsW) ∧
    ((∀ f ∈ fragsW, SqlChunk.sql ", " ∉ f) →
      (sepJoin false fragsW).count (SqlChunk.sql ", ") = fragsW.length - 1) :=
  claim_c7 fragElemsW fragsW rfl

theorem changeset_walk_ast_aux_spec (elems : List (ChangesetElem E)) :
    ∀ (frags : List (List SqlChunk)) (nc : Bool) (out : List SqlChunk),
      (elems.filter fun e => !e.is_noop).map ChangesetElem.walk_ast = frags.map Except.ok →
      changeset_walk_ast_aux nc out elems = Except.ok (out ++ sepJoin nc frags) := by
  induction elems with
  | nil =>
    intro frags nc out h
    cases frags with
    | nil => simp [changeset_walk_ast_aux, sepJoin]
    | cons f fs => simp at h
  | cons e es ih =>
    intro frags nc out h
    rw [changeset_walk_ast_aux]
    by_cases hnoop : e.is_noop
    · rw [List.filter_cons_of_neg (by simp [hnoop])] at h
      simp [hnoop, ih frags nc out h]
    · rw [List.filter_cons_of_pos (by simp [hnoop])] at h
      cases frags with
      | nil => simp at h
      | cons f fs =>
        simp at h
        obtain ⟨hf, hfs⟩ := h
        simp only [hnoop, if_false, Bool.false_eq_true, hf]
        rw [ih fs true _ hfs]
        cases nc <;> simp [sepJoin]

/-- Claim C4: the tuple changeset is a no-op exactly when every element
is, and its `walk_ast` renders, in original order, exactly the non-no-op
elements, prefixing `", "` to an element exactly when some earlier element
has already rendered (an all-no-op tuple renders nothing). -/
theorem claim_c4 (elems : List (ChangesetElem E)) (frags : List (List SqlChunk))
    (h : (elems.filter fun e => !e.is_noop).map ChangesetElem.walk_ast = frags.map Except.ok) :
    changeset_is_noop elems = elems.all ChangesetElem.is_noop ∧
    changeset_walk_ast elems = Except.ok (sepJoin false frags) ∧
    frags.length = (elems.filter fun e => !e.is_noop).length := by
  refine ⟨?_, ?_, ?_⟩
  · clear h
    induction elems with
    | nil => rfl
    | cons e es ihe => simp [changeset_is_noop, List.all_cons, ihe]
  · rw [changeset_walk_ast, changeset_walk_ast_aux_spec elems frags false [] h]
    simp
  · have := congrArg List.length h
    simpa using this.symm

/-- Closed instantiation of `claim_c4`: no-op flags `[false, true, false]`
give two rendered assignments joined by one separator, and the tuple is
not a no-op. -/
theorem claim_c4_witness :
    changeset_is_noop csW = csW.all ChangesetElem.is_noop ∧
    changeset_walk_ast csW = Except.ok (sepJoin false fragsCsW) ∧
    fragsCsW.length = (csW.filter fun e => !e.is_noop).length :=
  claim_c4 csW fragsCsW rfl

theorem column_names_std_aux_spec (pushId : String → Except E String)
    (entries : List (InsertEntry E)) :
    ∀ (ids : List String) (i : Nat) (out : List SqlChunk),
      entries.map (fun e => pushId e.name) = ids.map Except.ok →
      column_names_std_aux pushId i out entries =
        Except.ok (out ++ sepJoin (decide (i ≠ 0)) (ids.map fun s => [SqlChunk.ident s])) := by
  induction entries with
  | nil =>
    intro ids i out h
    cases ids with
    | nil => simp [column_names_std_aux, sepJoin]
    | cons a as => simp at h
  | cons entry es ih =>
    intro ids i out h
    cases ids with
    | nil => simp at h
    | cons nm ids' =>
      simp at h
      obtain ⟨hnm, hids⟩ := h
      rw [column_names_std_aux, hnm]
      show column_names_std_aux pushId (i + 1)
          ((if i = 0 then out else out ++ [SqlChunk.sql ", "]) ++ [SqlChunk.ident nm]) es =
        Except.ok (out ++ sepJoin (decide (i ≠ 0)) ((nm :: ids').map fun s => [SqlChunk.ident s]))
      rw [ih ids' (i + 1) _ hids]
      by_cases hi : i = 0
      · subst hi
        simp [sepJoin, Nat.succ_ne_zero, List.append_assoc]
      · simp [sepJoin, hi, Nat.succ_ne_zero, List.append_assoc]

theorem insert_walk_ast_std_aux_spec (entries : List (InsertEntry E)) :
    ∀ (vals : List (List SqlChunk)) (i : Nat) (out : List SqlChunk),
      entries.map valueChunks = vals.map Except.ok →
      insert_walk_ast_std_aux i out entries =
        Except.ok (out ++ sepJoin (decide (i ≠ 0)) vals) := by
  induction entries with
  | nil =>
    intro vals i out h
    cases vals with
    | nil => simp [insert_walk_ast_std_aux, sepJoin]
    | cons v vs => simp at h
  | cons entry es ih =>
    intro vals i out h
    cases vals with
    | nil => simp at h
    | cons v vs =>
      simp at h
      obtain ⟨hv, hvs⟩ := h
      rw [insert_walk_ast_std_aux, hv]
      show insert_walk_ast_std_aux (i + 1)
          ((if i = 0 then out else out ++ [SqlChunk.sql ", "]) ++ v) es =
        Except.ok (out ++ sepJoin (decide (i ≠ 0)) (v :: vs))
      rw [ih vs (i + 1) _ hvs]
      by_cases hi : i = 0
      · subst hi
        simp [sepJoin, Nat.succ_ne_zero, List.append_assoc]
      · simp [sepJoin, hi, Nat.succ_ne_zero, List.append_assoc]

/-- Claim C5: under the standard insert policy, `column_names` emits all
`N` column identifiers in positional order separated by `", "`, never
inspecting whether an entry is default-marked, and `walk_ast` emits
exactly `N` value positions in the same order — the element's expression
fragment for an `Expression` entry, the literal `DEFAULT` otherwise — so
the two lists have equal length `N`. -/
theorem claim_c5 (pushId : String → Except E String) (entries : List (InsertEntry E))
    (ids : List String) (vals : List (List SqlChunk))
    (hid : entries.map (fun e => pushId e.name) = ids.map Except.ok)
    (hval : entries.map valueChunks = vals.map Except.ok) :
    column_names_std pushId entries =
      Except.ok (sepJoin false (ids.map fun s => [SqlChunk.ident s])) ∧
    insert_walk_ast_std entries =
      Except.ok ([SqlChunk.sql "("] ++ sepJoin false vals ++ [SqlChunk.sql ")"]) ∧
    ids.length = entries.length ∧ vals.length = entries.length := by
  refine ⟨?_, ?_, ?_, ?_⟩
  · rw [column_names_std, column_names_std_aux_spec pushId entries ids 0 [] hid]
    simp
  · rw [insert_walk_ast_std,
      insert_walk_ast_std_aux_spec entries vals 0 [SqlChunk.sql "("] hval]
    simp [List.append_assoc]
  · have := congrArg List.length hid
    simpa using this.symm
  · have := congrArg List.length hval
    simpa using this.symm

/-- Identifier list of the standard-policy witness. -/
def idsW : List String := ["a", "b", "c"]

/-- Value list of the standard-policy witness: `DEFAULT` at position 2. -/
def valsW : List (List SqlChunk) :=
  [[SqlChunk.sql "1"], [SqlChunk.sql "DEFAULT"], [SqlChunk.sql "3"]]

/-- Closed instantiation of `claim_c5`: a three-entry tuple whose middle
entry is default-marked still renders three column names and three values,
the middle one being the literal `DEFAULT`. -/
theorem claim_c5_witness :
    column_names_std okId entriesW =
      Except.ok (sepJoin false (idsW.map fun s => [SqlChunk.ident s])) ∧
    insert_walk_ast_std entriesW =
      Except.ok ([SqlChunk.sql "("] ++ sepJoin false valsW ++ [SqlChunk.sql ")"]) ∧
    idsW.length = entriesW.length ∧ valsW.length = entriesW.length :=
  claim_c5 okId entriesW idsW valsW rfl rfl

theorem column_names_sqlite_aux_spec (pushId : String → Except E String)
    (entries : List (InsertEntry E)) :
    ∀ (ids : List String) (cp : Bool) (out : List SqlChunk),
      (entries.filter isExpr).map (fun e => pushId e.name) = ids.map Except.ok →
      column_names_sqlite_aux pushId cp out entries =
        Except.ok (out ++ sepJoin cp (ids.map fun s => [SqlChunk.ident s])) := by
  induction entries with
  | nil =>
    intro ids cp out h
    cases ids with
    | nil => simp [column_names_sqlite_aux, sepJoin]
    | cons a as => simp at h
  | cons entry es ih =>
    intro ids cp out h
    cases hv : entry.value with
    | Expression r =>
      rw [List.filter_cons_of_pos (by simp [isExpr, hv])] at h
      cases ids with
      | nil => simp at h
      | cons nm ids' =>
        simp at h
        obtain ⟨hnm, hids⟩ := h
        rw [column_names_sqlite_aux, hv, hnm]
        show column_names_sqlite_aux pushId true
            ((if cp then out ++ [SqlChunk.sql ", "] else out) ++ [SqlChunk.ident nm]) es =
          Except.ok (out ++ sepJoin cp ((nm :: ids').map fun s => [SqlChunk.ident s]))
        rw [ih ids' true _ hids]
        cases cp <;> simp [sepJoin, List.append_assoc]
    | Default =>
      rw [List.filter_cons_of_neg (by simp [isExpr, hv])] at h
      rw [column_names_sqlite_aux, hv]
      exact ih ids cp out h

theorem insert_walk_ast_sqlite_aux_spec (entries : List (InsertEntry E)) :
    ∀ (vals : List (List SqlChunk)) (cp : Bool) (out : List SqlChunk),
      (entries.filter isExpr).map exprRender = vals.map Except.ok →
      insert_walk_ast_sqlite_aux cp out entries =
        Except.ok (out ++ sepJoin cp vals) := by
  induction entries with
  | nil =>
    intro vals cp out h
    cases vals with
    | nil => simp [insert_walk_ast_sqlite_aux, sepJoin]
    | cons v vs => simp at h
  | cons entry es ih =>
    intro vals cp out h
    cases hv : entry.value with
    | Expression r =>
      rw [List.filter_cons_of_pos (by simp [isExpr, hv])] at h
      cases vals with
      | nil => simp at h
      | cons v vs =>
        simp [exprRender, hv] at h
        obtain ⟨hr, hvs⟩ := h
        rw [insert_walk_ast_sqlite_aux, hv, hr]
        show insert_walk_ast_sqlite_aux true
            ((if cp then out ++ [SqlChunk.sql ", "] else out) ++ v) es =
          Except.ok (out ++ sepJoin cp (v :: vs))
        rw [ih vs true _ hvs]
        cases cp <;> simp [sepJoin, List.append_assoc]
    | Default =>
      rw [List.filter_cons_of_neg (by simp [isExpr, hv])] at h
      rw [insert_walk_ast_sqlite_aux, hv]
      exact ih vals cp out h

/-- Claim C6: under the restricted-dialect (Sqlite) insert policy, both
the column-name list and the value list render exactly the `Expression`
entries — the same entries, in positional order — omitting default-marked
entries from both; in each list `", "` is prefixed to an element exactly
when something has already been written in that list, tracked by an
independent has-written flag rather than positional index 0. -/
theorem claim_c6 (pushId : String → Except E String) (entries : List (InsertEntry E))
    (ids : List String) (vals : List (List SqlChunk))
    (hid : (entries.filter isExpr).map (fun e => pushId e.name) = ids.map Except.ok)
    (hval : (entries.filter isExpr).map exprRender = vals.map Except.ok) :
    column_names_sqlite pushId entries =
      Except.ok (sepJoin false (ids.map fun s => [SqlChunk.ident s])) ∧
    insert_walk_ast_sqlite entries =
      Except.ok ([SqlChunk.sql "("] ++ sepJoin false vals ++ [SqlChunk.sql ")"]) ∧
    ids.length = (entries.filter isExpr).length ∧
    vals.length = (entries.filter isExpr).length := by
  refine ⟨?_, ?_, ?_, ?_⟩
  · rw [column_names_sqlite, column_names_sqlite_aux_spec pushId entries ids false [] hid]
    simp
  · rw [insert_walk_ast_sqlite,
      insert_walk_ast_sqlite_aux_spec entries vals false [SqlChunk.sql "("] hval]
  · have := congrArg List.length hid
    simpa using this.symm
  · have := congrArg List.length hval
    simpa using this.symm

/-- Identifier list of the Sqlite-policy witness: the default-marked
column `b` is omitted. -/
def idsSqliteW : List String := ["a", "c"]

/-- Value list of the Sqlite-policy witness: two values, no `DEFAULT`. -/
def valsSqliteW : List (List SqlChunk) := [[SqlChunk.sql "1"], [SqlChunk.sql "3"]]

/-- Closed instantiation of `claim_c6`: the same three-entry tuple renders
only two column names and two values under the restricted policy. -/
theorem claim_c6_witness :
    column_names_sqlite okId entriesW =
      Except.ok (sepJoin false (idsSqliteW.map fun s => [SqlChunk.ident s])) ∧
    insert_walk_ast_sqlite entriesW =
      Except.ok ([SqlChunk.sql "("] ++ sepJoin false valsSqliteW ++ [SqlChunk.sql ")"]) ∧
    idsSqliteW.length = (entriesW.filter isExpr).length ∧
    valsSqliteW.length = (entriesW.filter isExpr).length :=
  claim_c6 okId entriesW idsSqliteW valsSqliteW rfl rfl

/-- Claim C10: under the Sqlite insert policy, an all-default tuple makes
`column_names` emit nothing (no identifiers, no separators) and succeed,
and `walk_ast` emit exactly `(` and `)` with nothing between them and
succeed — for every identifier renderer, fallible ones included, since
neither operation attempts any rendering. -/
theorem claim_c10 (pushId : String → Except E String) (entries : List (InsertEntry E))
    (h : entries.all (fun e => !isExpr e) = true) :
    column_names_sqlite pushId entries = Except.ok [] ∧
    insert_walk_ast_sqlite entries = Except.ok [SqlChunk.sql "(", SqlChunk.sql ")"] := by
  have hfil : entries.filter isExpr = [] := by
    rw [List.filter_eq_nil_iff]
    intro a ha
    have := (List.all_eq_true.mp h) a ha
    simpa using this
  have h1 := column_names_sqlite_aux_spec pushId entries [] false []
    (by rw [hfil]; rfl)
  have h2 := insert_walk_ast_sqlite_aux_spec entries [] false [SqlChunk.sql "("]
    (by rw [hfil]; rfl)
  constructor
  · rw [column_names_sqlite, h1]
    rfl
  · rw [insert_walk_ast_sqlite, h2]
    rfl

/-- Closed instantiation of `claim_c10`: a three-entry all-default tuple
emits no column names and the bare `()` value list. -/
theorem claim_c10_witness :
    column_names_sqlite okId entriesAllDefault = Except.ok [] ∧
    insert_walk_ast_sqlite entriesAllDefault =
      Except.ok [SqlChunk.sql "(", SqlChunk.sql ")"] :=
  claim_c10 okId entriesAllDefault rfl

/-- Claim C9: the tuple's query-shape identity token is the ordered
composite of its elements' tokens, `has_static_query_id` holds exactly
when it holds of every element, and replacing the dynamic bound value of
any element — keeping structure — changes neither the composite token nor
its staticness. -/
theorem claim_c9 (elems : List (QueryIdElem Tok V)) :
    tuple_query_id elems = elems.map QueryIdElem.query_id ∧
    (tuple_has_static_query_id elems = true ↔
      ∀ e ∈ elems, e.has_static_query_id = true) ∧
    ∀ (i : Nat) (v : V),
      tuple_query_id (set_bound elems i v) = tuple_query_id elems ∧
      tuple_has_static_query_id (set_bound elems i v) =
        tuple_has_static_query_id elems := by
  refine ⟨?_, ?_, ?_⟩
  · induction elems with
    | nil => rfl
    | cons e es ihe => simp [tuple_query_id, ihe]
  · induction elems with
    | nil => simp [tuple_has_static_query_id]
    | cons e es ihe =>
      simp [tuple_has_static_query_id, Bool.and_eq_true, ihe, List.mem_cons]
  · intro i v
    induction elems generalizing i with
    | nil => exact ⟨rfl, rfl⟩
    | cons e es ihe =>
      cases i with
      | zero => simp [set_bound, tuple_query_id, tuple_has_static_query_id]
      | succ j =>
        have := ihe j
        simp [set_bound, tuple_query_id, tuple_has_static_query_id, this.1, this.2]

/-- Claim C8: the scalar-metadata operation on a tuple type never produces
metadata: for every lookup argument it takes the invariant-violation path,
aborting with the `unreachable!` message rather than returning a value. -/
theorem claim_c8 (Lookup TypeMetadata : Type) (lookup : Lookup) :
    tuple_metadata Lookup TypeMetadata lookup =
      PanicOr.panicked "Tuples should never implement `ToSql` directly" ∧
    ∀ m : TypeMetadata, tuple_metadata Lookup TypeMetadata lookup ≠ PanicOr.value m := by
  exact ⟨rfl, fun m h => PanicOr.noConfusion h⟩

end DieselTuples
